import Mathlib

/-!
Verification of the fedex-scraper extraction core: a shallow embedding of
the background service worker driver (runExtraction, generateXlsx,
sanitizeSheetName), the popup amount parser (parseAmounts) and the content
script tracking-id extractors (scrapeTrackingIds, findClickAndScrapeInvoice
extraction phase, normalizeAmount), with theorems settling the frozen claims.
JS strings are modelled as Lean String values through their character lists;
JS objects keyed by strings are ordered association lists (insertion order,
assignment overwrites in place); the asynchronous agent round-trips are an
oracle environment giving each call its outcome.
-/

namespace FedexScraper

/-! ### Amount normalization (content.js normalizeAmount, popup.js cleaning step)

Source: `return str.replace(/[^0-9.]/g, "")` - drop every character that is
not an ASCII digit or a dot. -/

def keepAmountChar (c : Char) : Bool := c.isDigit || c == '.'

def normalizeAmount (s : String) : String := ⟨s.data.filter keepAmountChar⟩

/-! ### popup.js parseAmounts

Source: split the raw input on runs of comma, newline, carriage return or
semicolon; trim each token; drop empty tokens; strip each token to digits
and dots; keep it when it matches `^\d+(\.\d{1,2})?$`; deduplicate keeping
first occurrences (JS `[...new Set(amounts)]`). -/

def isDelim (c : Char) : Bool := c == ',' || c == '\n' || c == '\r' || c == ';'

/-- Split a character list at every delimiter (the regex class `[,\n\r;]`);
runs of delimiters leave empty chunks which the caller filters away, so the
result after filtering agrees with the JS split on `[,\n\r;]+`. -/
def tokenSplit (cs : List Char) : List (List Char) :=
  cs.foldr
    (fun c acc =>
      if isDelim c then [] :: acc
      else
        match acc with
        | [] => [[c]]
        | t :: ts => (c :: t) :: ts)
    [[]]

def isSpaceChar (c : Char) : Bool :=
  c == ' ' || c == '\t' || c == '\n' || c == '\r' || c == '\x0b' || c == '\x0c'

/-- JS String.prototype.trim on a character list. -/
def trimChars (cs : List Char) : List Char :=
  ((cs.dropWhile isSpaceChar).reverse.dropWhile isSpaceChar).reverse

/-- The regex `^\d+(\.\d{1,2})?$` applied after the leading digit run:
either nothing is left, or a dot followed by exactly one or two digits. -/
def fracOk : List Char → Bool
  | [] => true
  | '.' :: fs => fs.all Char.isDigit && (fs.length == 1 || fs.length == 2)
  | _ => false

/-- The shape test `/^\d+(\.\d{1,2})?$/.test(cleaned)` of popup.js. -/
def amountShape (s : String) : Bool :=
  !(s.data.takeWhile Char.isDigit).isEmpty && fracOk (s.data.dropWhile Char.isDigit)

/-- Append a string unless it is already present, guarded by a predicate:
the `if (...) arr.push(x)` idiom used with a membership check. Also models
insertion into a JS Set (predicate true), whose iteration order is
insertion order. -/
def pushIfNew (p : Bool) (x : String) (acc : List String) : List String :=
  if p && !acc.contains x then acc ++ [x] else acc

/-- `[...new Set(l)]`: deduplicate keeping the first occurrence of each
element, preserving order. -/
def dedupKeep (l : List String) : List String :=
  l.foldl (fun acc x => pushIfNew true x acc) []

def parseAmounts (raw : String) : List String :=
  let tokens :=
    ((tokenSplit raw.data).map (fun t => (⟨trimChars t⟩ : String))).filter (fun t => t != "")
  let amounts := tokens.filterMap (fun tok =>
    let cleaned := normalizeAmount tok
    if cleaned != "" && amountShape cleaned then some cleaned else none)
  dedupKeep amounts

/-! ### Sheet name sanitization (background workers)

Source: `name.replace(/[[\]:*?/\\]/g, "_").slice(0, 31)`. -/

def illegalSheetChar (c : Char) : Bool :=
  c == '[' || c == ']' || c == ':' || c == '*' || c == '?' || c == '/' || c == '\\'

def sanitizeSheetName (name : String) : String :=
  ⟨(name.data.map (fun c => if illegalSheetChar c then '_' else c)).take 31⟩

/-! ### Basic lemmas about the string helpers -/

lemma normalizeAmount_all_kept (s : String) :
    (normalizeAmount s).data.all keepAmountChar = true := by
  simp only [normalizeAmount, List.all_eq_true]
  intro c hc
  exact (List.mem_filter.mp hc).2

lemma normalizeAmount_of_all_kept (s : String)
    (h : s.data.all keepAmountChar = true) : normalizeAmount s = s := by
  have : s.data.filter keepAmountChar = s.data :=
    List.filter_eq_self.mpr (by simpa [List.all_eq_true] using h)
  simp only [normalizeAmount, this]

lemma normalizeAmount_idem (s : String) :
    normalizeAmount (normalizeAmount s) = normalizeAmount s :=
  normalizeAmount_of_all_kept _ (normalizeAmount_all_kept s)

/-- C6: amount normalization is idempotent, and the two examples of the
spec evaluate as stated. -/
theorem c6_normalize_idempotent :
    (∀ s : String, normalizeAmount (normalizeAmount s) = normalizeAmount s) ∧
    normalizeAmount "$1,431.43" = "1431.43" ∧
    normalizeAmount "452.67" = "452.67" :=
  ⟨normalizeAmount_idem, by decide, by decide⟩

/-- C7: every sheet name built from an amount is free of the illegal
characters and at most 31 characters long. -/
theorem c7_sheet_name_safe (amount : String) :
    (sanitizeSheetName ("$" ++ amount)).length ≤ 31 ∧
    (sanitizeSheetName ("$" ++ amount)).data.all (fun c => !illegalSheetChar c) = true := by
  constructor
  · show (sanitizeSheetName ("$" ++ amount)).data.length ≤ 31
    simp only [sanitizeSheetName]
    exact le_trans (List.length_take_le _ _) (by omega)
  · simp only [sanitizeSheetName, List.all_eq_true]
    intro c hc
    have hc' := List.mem_of_mem_take hc
    rcases List.mem_map.mp hc' with ⟨d, _, rfl⟩
    by_cases h : illegalSheetChar d = true
    · simp [h]
      decide
    · simp [h]

/-! ### Driver model (part_000 runExtraction)

The background worker drives one browser tab. Each agent round-trip is
modelled by an oracle: the combined FIND_CLICK_AND_SCRAPE call has a
per-amount outcome, and each per-shipment iteration (CLICK_TRACKING_ID,
WAIT_FOR_SHIPMENT_PAGE, SCRAPE_SHIPMENT_DETAILS) has a per-index outcome.
The process-wide `cancelled` flag is polled at the top of the per-amount
loop and the top of the per-shipment loop; an external cancel signal sets
it once and it stays set, so the sequence of polled values is monotone and
is modelled by a cutoff: poll number r reads true iff the cutoff is some k
with k ≤ r. NAVIGATE_BACK and WAIT_FOR_INVOICE_DETAILS failures are caught
and only logged (the recovery helpers are modelled as non-throwing), so
they do not appear in the state. -/

/-- One scraped shipment: JS object mapping field label to value. -/
abbrev ShipmentData := List (String × String)

structure InvoiceRecord where
  invoiceNumber : String
  shipments : List ShipmentData
deriving DecidableEq

/-- Outcome of the combined FIND_CLICK_AND_SCRAPE call for one amount:
the sendToTab promise rejected (timeout or transport), the response was
missing or had success = false, or it succeeded with an invoice number and
the discovered tracking ids. -/
inductive FindOutcome where
  | transportErr
  | notFound
  | found (invoiceNumber : String) (trackingIds : List String)
deriving DecidableEq

/-- Outcome of one per-shipment iteration. clickErr: the CLICK_TRACKING_ID
call threw; clickOk: the returned clickResult.success; waitErr: the
WAIT_FOR_SHIPMENT_PAGE call threw (the driver then runs a fallback
background-level URL wait whose boolean result it discards and proceeds);
scrapeErr: the SCRAPE_SHIPMENT_DETAILS call threw; scrapeRes: some data
when the scrape response had success and a data payload. -/
structure ShipStep where
  clickErr : Bool
  clickOk : Bool
  waitErr : Bool
  scrapeErr : Bool
  scrapeRes : Option ShipmentData
deriving DecidableEq

/-- The body of the per-shipment loop after the cancellation poll and the
back-navigation block: the data pushed onto `shipments`, or none when this
iteration hit `continue` (click error, click not successful, scrape error)
or the scrape response lacked success or data. The wait step result never
reaches this decision: its failure is recovered by the fallback wait. -/
def procShip (st : ShipStep) : Option ShipmentData :=
  if st.clickErr then none
  else if !st.clickOk then none
  else if st.scrapeErr then none
  else st.scrapeRes

/-- The oracle for one run: outcomes of every agent call, indexed by the
amount position and the shipment position, plus whether generateXlsx and
the chrome download succeed. -/
structure Env where
  find : Nat → FindOutcome
  ship : Nat → Nat → ShipStep
  xlsxOk : Bool
  downloadOk : Bool

/-- Value the `cancelled` flag shows at its r-th poll: the flag was set
just before poll number k (cutoff = some k) or never (none). -/
def cancelSet (cutoff : Option Nat) (r : Nat) : Bool :=
  match cutoff with
  | none => false
  | some k => decide (k ≤ r)

/-- The per-shipment loop of runExtraction for one amount, running `n`
more iterations starting at index `j` with `r` flag polls already made:
poll the flag (break when set), then click, wait, scrape and push.
Returns the final shipments list and the updated poll count. -/
def runShipLoop (step : Nat → ShipStep) (cutoff : Option Nat) :
    Nat → Nat → Nat → List ShipmentData → List ShipmentData × Nat
  | 0, _, r, acc => (acc, r)
  | n + 1, j, r, acc =>
    if cancelSet cutoff r then (acc, r + 1)
    else
      let acc' := match procShip (step j) with
        | some d => acc ++ [d]
        | none => acc
      runShipLoop step cutoff n (j + 1) (r + 1) acc'

/-- JS object assignment allData[k] = v: replace in place when the key
exists, append otherwise. -/
def setKey (m : List (String × InvoiceRecord)) (k : String) (v : InvoiceRecord) :
    List (String × InvoiceRecord) :=
  if m.any (fun p => p.1 == k) then
    m.map (fun p => if p.1 == k then (k, v) else p)
  else m ++ [(k, v)]

/-- How the run ends: the DONE message sent last, with the data on which
branch sent it. -/
inductive Terminal where
  | cancelled
  | xlsxFailed
  | downloadFailed
  | completed (shipmentCount invoiceCount : Nat)
deriving DecidableEq

structure RunResult where
  data : List (String × InvoiceRecord)
  terminal : Terminal
  exportAttempted : Bool
  downloadTriggered : Bool
deriving DecidableEq

/-- The per-amount loop: poll the flag (return early reporting
cancellation when set), then navigate, run the combined find call and
dispatch on its outcome, run the shipment loop when tracking ids exist,
and record exactly one InvoiceRecord for the amount. Returns the data map,
the poll count, and whether the cancelled early return happened. -/
def runAmountLoop (env : Env) (cutoff : Option Nat) :
    List String → Nat → Nat → List (String × InvoiceRecord) →
    List (String × InvoiceRecord) × Nat × Bool
  | [], _, r, acc => (acc, r, false)
  | a :: rest, i, r, acc =>
    if cancelSet cutoff r then (acc, r + 1, true)
    else
      match env.find i with
      | .transportErr =>
          runAmountLoop env cutoff rest (i + 1) (r + 1) (setKey acc a ⟨"ERROR", []⟩)
      | .notFound =>
          runAmountLoop env cutoff rest (i + 1) (r + 1) (setKey acc a ⟨"NOT FOUND", []⟩)
      | .found inv tids =>
          if tids.isEmpty then
            runAmountLoop env cutoff rest (i + 1) (r + 1) (setKey acc a ⟨inv, []⟩)
          else
            let res := runShipLoop (env.ship i) cutoff tids.length 0 (r + 1) []
            runAmountLoop env cutoff rest (i + 1) res.2 (setKey acc a ⟨inv, res.1⟩)

def totalShipments (m : List (String × InvoiceRecord)) : Nat :=
  (m.map (fun p => p.2.shipments.length)).sum

/-- part_000 runExtraction: run the per-amount loop; on its cancelled
early return the run reports cancellation and never reaches export; else
generateXlsx runs (exportAttempted), then the download (downloadTriggered
when the workbook was produced), and the terminal DONE message carries the
error or the summary counts (invoiceCount is amounts.length). -/
def runExtraction (env : Env) (amounts : List String) (cutoff : Option Nat) : RunResult :=
  let res := runAmountLoop env cutoff amounts 0 0 []
  if res.2.2 then
    { data := res.1, terminal := .cancelled,
      exportAttempted := false, downloadTriggered := false }
  else if !env.xlsxOk then
    { data := res.1, terminal := .xlsxFailed,
      exportAttempted := true, downloadTriggered := false }
  else if !env.downloadOk then
    { data := res.1, terminal := .downloadFailed,
      exportAttempted := true, downloadTriggered := true }
  else
    { data := res.1, terminal := .completed (totalShipments res.1) amounts.length,
      exportAttempted := true, downloadTriggered := true }

/-! ### Lemmas about setKey and lookup -/

lemma any_key_eq (m : List (String × InvoiceRecord)) (k : String) :
    m.any (fun p => p.1 == k) = true ↔ k ∈ m.map Prod.fst := by
  simp only [List.any_eq_true, beq_iff_eq, List.mem_map]

lemma map_fst_setKey (m : List (String × InvoiceRecord)) (k : String) (v : InvoiceRecord) :
    (setKey m k v).map Prod.fst =
      if k ∈ m.map Prod.fst then m.map Prod.fst else m.map Prod.fst ++ [k] := by
  unfold setKey
  by_cases h : m.any (fun p => p.1 == k) = true
  · rw [if_pos h, if_pos ((any_key_eq m k).mp h), List.map_map]
    apply List.map_congr_left
    intro p _
    by_cases hp : p.1 = k
    · simp [hp]
    · simp [hp]
  · rw [if_neg h, if_neg (fun hm => h ((any_key_eq m k).mpr hm))]
    simp

lemma mem_keys_setKey (m : List (String × InvoiceRecord)) (k : String) (v : InvoiceRecord)
    (a : String) :
    a ∈ (setKey m k v).map Prod.fst ↔ a ∈ m.map Prod.fst ∨ a = k := by
  rw [map_fst_setKey]
  by_cases h : k ∈ m.map Prod.fst
  · rw [if_pos h]
    constructor
    · exact Or.inl
    · rintro (ha | rfl)
      · exact ha
      · exact h
  · rw [if_neg h]
    simp

lemma nodup_keys_setKey (m : List (String × InvoiceRecord)) (k : String) (v : InvoiceRecord)
    (h : (m.map Prod.fst).Nodup) : ((setKey m k v).map Prod.fst).Nodup := by
  rw [map_fst_setKey]
  by_cases hk : k ∈ m.map Prod.fst
  · rwa [if_pos hk]
  · rw [if_neg hk]
    simp [List.nodup_append, h, hk]

lemma lookup_replace (m : List (String × InvoiceRecord)) (k : String) (v : InvoiceRecord)
    (h : m.any (fun p => p.1 == k) = true) :
    (m.map (fun p => if p.1 == k then (k, v) else p)).lookup k = some v := by
  induction m with
  | nil => simp at h
  | cons p ps ih =>
    cases hb : (p.1 == k) with
    | true =>
      rw [List.map_cons, if_pos hb]
      simp [List.lookup]
    | false =>
      have h' : ps.any (fun p => p.1 == k) = true := by
        simpa [List.any_cons, hb] using h
      have hk : (k == p.1) = false := by
        simp only [beq_eq_false_iff_ne] at hb ⊢
        exact Ne.symm hb
      rw [List.map_cons, if_neg (by simp [hb])]
      simp only [List.lookup, hk]
      exact ih h'

lemma lookup_append_absent (m rest : List (String × InvoiceRecord)) (k : String)
    (h : m.any (fun p => p.1 == k) = false) :
    (m ++ rest).lookup k = rest.lookup k := by
  induction m with
  | nil => simp
  | cons p ps ih =>
    have hp : (p.1 == k) = false := by
      cases hb : (p.1 == k) with
      | true => simp [List.any_cons, hb] at h
      | false => rfl
    have h' : ps.any (fun p => p.1 == k) = false := by
      simpa [List.any_cons, hp] using h
    have hk : (k == p.1) = false := by
      simp only [beq_eq_false_iff_ne] at hp ⊢
      exact Ne.symm hp
    simp [List.lookup, hk, ih h']

lemma lookup_setKey_self (m : List (String × InvoiceRecord)) (k : String) (v : InvoiceRecord) :
    (setKey m k v).lookup k = some v := by
  unfold setKey
  by_cases h : m.any (fun p => p.1 == k) = true
  · rw [if_pos h]
    exact lookup_replace m k v h
  · rw [if_neg h]
    rw [lookup_append_absent _ _ _ (Bool.not_eq_true _ ▸ h)]
    simp [List.lookup]

lemma lookup_map_replace_ne (ps : List (String × InvoiceRecord)) (k : String)
    (v : InvoiceRecord) (k' : String) (h : k' ≠ k) :
    (ps.map (fun p => if p.1 == k then (k, v) else p)).lookup k' = ps.lookup k' := by
  induction ps with
  | nil => simp
  | cons p ps ih =>
    cases hb : (p.1 == k) with
    | true =>
      have hp : p.1 = k := by simpa using hb
      have hk' : (k' == p.1) = false := by simp [hp, h]
      have hkk : (k' == k) = false := by simp [h]
      rw [List.map_cons, if_pos hb]
      simp only [List.lookup, hk', hkk]
      exact ih
    | false =>
      rw [List.map_cons, if_neg (by simp [hb])]
      cases hq : (k' == p.1) with
      | true => simp only [List.lookup, hq]
      | false =>
        simp only [List.lookup, hq]
        exact ih

lemma lookup_append_ne (m : List (String × InvoiceRecord)) (k : String) (v : InvoiceRecord)
    (k' : String) (h : k' ≠ k) : (m ++ [(k, v)]).lookup k' = m.lookup k' := by
  induction m with
  | nil =>
    have hkk : (k' == k) = false := by simp [h]
    simp [List.lookup, hkk]
  | cons p ps ih =>
    cases hq : (k' == p.1) with
    | true => simp [List.lookup, hq]
    | false => simp [List.lookup, hq, ih]

lemma lookup_setKey_ne (m : List (String × InvoiceRecord)) (k : String) (v : InvoiceRecord)
    (k' : String) (h : k' ≠ k) : (setKey m k v).lookup k' = m.lookup k' := by
  unfold setKey
  split
  · exact lookup_map_replace_ne m k v k' h
  · exact lookup_append_ne m k v k' h

/-! ### The run without cancellation -/

/-- The record one iteration of the per-amount loop stores for amount
index i, when no cancellation interrupts the shipment loop. -/
def amountRecord (env : Env) (i : Nat) : InvoiceRecord :=
  match env.find i with
  | .transportErr => ⟨"ERROR", []⟩
  | .notFound => ⟨"NOT FOUND", []⟩
  | .found inv tids =>
      ⟨inv, (List.range tids.length).filterMap (fun j => procShip (env.ship i j))⟩

/-- The data map the per-amount loop builds when never cancelled. -/
def dataSpec (env : Env) : List String → Nat → List (String × InvoiceRecord) →
    List (String × InvoiceRecord)
  | [], _, acc => acc
  | a :: rest, i, acc => dataSpec env rest (i + 1) (setKey acc a (amountRecord env i))

lemma cancelSet_none (r : Nat) : cancelSet none r = false := rfl

lemma runShipLoop_none (step : Nat → ShipStep) :
    ∀ (n j r : Nat) (acc : List ShipmentData),
      runShipLoop step none n j r acc =
        (acc ++ (List.range' j n).filterMap (fun k => procShip (step k)), r + n) := by
  intro n
  induction n with
  | zero => intro j r acc; simp [runShipLoop]
  | succ n ih =>
    intro j r acc
    rw [runShipLoop, cancelSet_none]
    simp only [Bool.false_eq_true, if_false, List.range'_succ, List.filterMap_cons]
    cases h : procShip (step j) with
    | none =>
      dsimp only
      rw [ih]
      simp only [Prod.mk.injEq]
      exact ⟨by simp, by omega⟩
    | some d =>
      dsimp only
      rw [ih]
      simp only [Prod.mk.injEq, List.append_assoc, List.singleton_append]
      exact ⟨by simp, by omega⟩

lemma runAmountLoop_none (env : Env) :
    ∀ (amounts : List String) (i r : Nat) (acc : List (String × InvoiceRecord)),
      (runAmountLoop env none amounts i r acc).1 = dataSpec env amounts i acc ∧
      (runAmountLoop env none amounts i r acc).2.2 = false := by
  intro amounts
  induction amounts with
  | nil => intro i r acc; simp [runAmountLoop, dataSpec]
  | cons a rest ih =>
    intro i r acc
    rw [runAmountLoop, cancelSet_none]
    simp only [Bool.false_eq_true, if_false]
    rw [dataSpec]
    cases h : env.find i with
    | transportErr =>
      have hr : amountRecord env i = ⟨"ERROR", []⟩ := by
        unfold amountRecord
        rw [h]
      rw [hr]
      dsimp only
      exact ih (i + 1) (r + 1) _
    | notFound =>
      have hr : amountRecord env i = ⟨"NOT FOUND", []⟩ := by
        unfold amountRecord
        rw [h]
      rw [hr]
      dsimp only
      exact ih (i + 1) (r + 1) _
    | found inv tids =>
      have hr : amountRecord env i =
          ⟨inv, (List.range tids.length).filterMap (fun j => procShip (env.ship i j))⟩ := by
        unfold amountRecord
        rw [h]
      rw [hr]
      dsimp only
      by_cases ht : tids.isEmpty = true
      · have htn : tids = [] := by
          cases tids with
          | nil => rfl
          | cons x xs => simp at ht
        rw [if_pos ht]
        subst htn
        simp only [List.length_nil, List.range_zero, List.filterMap_nil]
        exact ih (i + 1) (r + 1) _
      · rw [if_neg ht, List.range_eq_range', runShipLoop_none]
        dsimp only
        rw [List.nil_append]
        exact ih (i + 1) _ _

lemma mem_keys_dataSpec (env : Env) :
    ∀ (amounts : List String) (i : Nat) (acc : List (String × InvoiceRecord)) (a : String),
      a ∈ (dataSpec env amounts i acc).map Prod.fst ↔
        a ∈ acc.map Prod.fst ∨ a ∈ amounts := by
  intro amounts
  induction amounts with
  | nil => intro i acc a; simp [dataSpec]
  | cons b rest ih =>
    intro i acc a
    rw [dataSpec, ih, mem_keys_setKey]
    simp only [List.mem_cons]
    tauto

lemma nodup_keys_dataSpec (env : Env) :
    ∀ (amounts : List String) (i : Nat) (acc : List (String × InvoiceRecord)),
      (acc.map Prod.fst).Nodup → ((dataSpec env amounts i acc).map Prod.fst).Nodup := by
  intro amounts
  induction amounts with
  | nil => intro i acc h; simpa [dataSpec] using h
  | cons b rest ih =>
    intro i acc h
    exact ih (i + 1) _ (nodup_keys_setKey _ _ _ h)

lemma runExtraction_data (env : Env) (amounts : List String) (cutoff : Option Nat) :
    (runExtraction env amounts cutoff).data = (runAmountLoop env cutoff amounts 0 0 []).1 := by
  simp only [runExtraction]
  split
  · rfl
  · split
    · rfl
    · split
      · rfl
      · rfl

/-- C1: with no cancellation, for every oracle of agent responses the
per-amount loop finishes and the result map holds exactly one
InvoiceRecord per unique requested amount: its keys are duplicate-free and
a key is present exactly when that amount was requested. -/
theorem c1_one_record_per_amount (env : Env) (amounts : List String) :
    ((runExtraction env amounts none).data.map Prod.fst).Nodup ∧
    (∀ a, a ∈ (runExtraction env amounts none).data.map Prod.fst ↔ a ∈ amounts) := by
  have h := runAmountLoop_none env amounts 0 0 []
  have hd : (runExtraction env amounts none).data = (runAmountLoop env none amounts 0 0 []).1 :=
    runExtraction_data env amounts none
  have hdata : (runExtraction env amounts none).data = dataSpec env amounts 0 [] :=
    hd.trans h.1
  rw [hdata]
  refine ⟨nodup_keys_dataSpec env amounts 0 [] (by simp), ?_⟩
  intro a
  rw [mem_keys_dataSpec]
  simp

lemma lookup_dataSpec_absent (env : Env) :
    ∀ (amounts : List String) (i : Nat) (acc : List (String × InvoiceRecord)) (k : String),
      k ∉ amounts → (dataSpec env amounts i acc).lookup k = acc.lookup k := by
  intro amounts
  induction amounts with
  | nil => intro i acc k _; rfl
  | cons a rest ih =>
    intro i acc k h
    rw [dataSpec, ih _ _ _ (fun hk => h (List.mem_cons_of_mem _ hk))]
    exact lookup_setKey_ne acc a _ k (fun he => h (he ▸ List.mem_cons_self a rest))

lemma lookup_dataSpec (env : Env) :
    ∀ (amounts : List String) (i : Nat) (acc : List (String × InvoiceRecord)),
      amounts.Nodup →
      ∀ (j : Nat) (hj : j < amounts.length),
        (dataSpec env amounts i acc).lookup amounts[j] = some (amountRecord env (i + j)) := by
  intro amounts
  induction amounts with
  | nil => intro i acc _ j hj; cases hj
  | cons a rest ih =>
    intro i acc hnd j hj
    rw [dataSpec]
    cases j with
    | zero =>
      have ha : a ∉ rest := (List.nodup_cons.mp hnd).1
      rw [List.getElem_cons_zero, lookup_dataSpec_absent env rest (i + 1) _ a ha,
        lookup_setKey_self, Nat.add_zero]
    | succ j' =>
      have hj' : j' < rest.length := by simpa using hj
      rw [List.getElem_cons_succ, ih (i + 1) _ (List.nodup_cons.mp hnd).2 j' hj']
      have he : i + 1 + j' = i + (j' + 1) := by omega
      rw [he]

lemma runExtraction_none_not_cancelled (env : Env) (amounts : List String) :
    (runExtraction env amounts none).terminal ≠ Terminal.cancelled := by
  have h := (runAmountLoop_none env amounts 0 0 []).2
  simp only [runExtraction, h]
  split
  · rename_i hc
    exact absurd hc (by simp)
  · split
    · simp
    · split
      · simp
      · simp

lemma mem_keys_run_none (env : Env) (amounts : List String) (a : String) :
    a ∈ (runExtraction env amounts none).data.map Prod.fst ↔ a ∈ amounts := by
  rw [runExtraction_data, (runAmountLoop_none env amounts 0 0 []).1, mem_keys_dataSpec]
  simp

lemma lookup_run_none (env : Env) (amounts : List String) (hnd : amounts.Nodup)
    (i : Nat) (hi : i < amounts.length) :
    (runExtraction env amounts none).data.lookup amounts[i] =
      some (amountRecord env i) := by
  rw [runExtraction_data, (runAmountLoop_none env amounts 0 0 []).1]
  have h := lookup_dataSpec env amounts 0 [] hnd i hi
  rwa [Nat.zero_add] at h

/-- C3: when the combined locate-and-open call reports not-found for an
amount, the record stored for it is the NOT FOUND sentinel with no
shipments, the run is never cancelled or aborted by it, and every
requested amount still receives a record. -/
theorem c3_not_found_record (env : Env) (amounts : List String) (hnd : amounts.Nodup)
    (i : Nat) (hi : i < amounts.length) (hnf : env.find i = FindOutcome.notFound) :
    (runExtraction env amounts none).data.lookup amounts[i] =
      some ⟨"NOT FOUND", []⟩ ∧
    (runExtraction env amounts none).terminal ≠ Terminal.cancelled ∧
    (∀ a, a ∈ (runExtraction env amounts none).data.map Prod.fst ↔ a ∈ amounts) := by
  refine ⟨?_, runExtraction_none_not_cancelled env amounts, mem_keys_run_none env amounts⟩
  rw [lookup_run_none env amounts hnd i hi]
  have hr : amountRecord env i = ⟨"NOT FOUND", []⟩ := by
    unfold amountRecord
    rw [hnf]
  rw [hr]

def stepOkEx : ShipStep :=
  ⟨false, true, false, false, some [("Tracking ID number", "111111111111")]⟩

def env3 : Env :=
  { find := fun _ => FindOutcome.notFound, ship := fun _ _ => stepOkEx,
    xlsxOk := true, downloadOk := true }

theorem c3_witness :
    (runExtraction env3 ["452.67", "89.00"] none).data.lookup "89.00" =
      some ⟨"NOT FOUND", []⟩ ∧
    (runExtraction env3 ["452.67", "89.00"] none).terminal ≠ Terminal.cancelled ∧
    (∀ a, a ∈ (runExtraction env3 ["452.67", "89.00"] none).data.map Prod.fst ↔
      a ∈ ["452.67", "89.00"]) :=
  c3_not_found_record env3 ["452.67", "89.00"] (by decide) 1 (by decide) rfl

/-- All three agent interactions of one per-shipment iteration succeed
(click call returns success, the wait call returns, the scrape call
returns success with data d). -/
def stepAllOk (st : ShipStep) (d : ShipmentData) : Prop :=
  st.clickErr = false ∧ st.clickOk = true ∧ st.waitErr = false ∧
    st.scrapeErr = false ∧ st.scrapeRes = some d

lemma procShip_of_allOk {st : ShipStep} {d : ShipmentData} (h : stepAllOk st d) :
    procShip st = some d := by
  obtain ⟨h1, h2, _, h4, h5⟩ := h
  simp [procShip, h1, h2, h4, h5]

lemma procShip_eq_none_iff (st : ShipStep) :
    procShip st = none ↔
      st.clickErr = true ∨ st.clickOk = false ∨ st.scrapeErr = true ∨
        st.scrapeRes = none := by
  obtain ⟨ce, co, we, se, sr⟩ := st
  cases ce <;> cases co <;> cases se <;> cases sr <;> simp [procShip]

lemma filterMap_eq_map_of_some {α β : Type} (g : α → Option β) (f : α → β) :
    ∀ l : List α, (∀ x ∈ l, g x = some (f x)) → l.filterMap g = l.map f := by
  intro l
  induction l with
  | nil => intro _; rfl
  | cons x xs ih =>
    intro h
    rw [List.filterMap_cons, h x (List.mem_cons_self x xs), List.map_cons,
      ih (fun y hy => h y (List.mem_cons_of_mem _ hy))]

/-- C4: when the locate step discovers the tracking ids `tids` for the
amount at position i and every per-shipment step succeeds, the finalized
shipment list for that amount is exactly the N scraped records in
discovery order. -/
theorem c4_all_success_order (env : Env) (amounts : List String) (hnd : amounts.Nodup)
    (i : Nat) (hi : i < amounts.length) (inv : String) (tids : List String)
    (hf : env.find i = FindOutcome.found inv tids) (f : Nat → ShipmentData)
    (hs : ∀ j, j < tids.length → stepAllOk (env.ship i j) (f j)) :
    (runExtraction env amounts none).data.lookup amounts[i] =
      some ⟨inv, (List.range tids.length).map f⟩ ∧
    ((List.range tids.length).map f).length = tids.length := by
  refine ⟨?_, by simp⟩
  rw [lookup_run_none env amounts hnd i hi]
  have hr : amountRecord env i =
      ⟨inv, (List.range tids.length).filterMap (fun j => procShip (env.ship i j))⟩ := by
    unfold amountRecord
    rw [hf]
  rw [hr, filterMap_eq_map_of_some _ f _
    (fun j hj => procShip_of_allOk (hs j (List.mem_range.mp hj)))]

def env4 : Env :=
  { find := fun _ => FindOutcome.found "INV001" ["111111111111", "222222222222"],
    ship := fun _ j => ⟨false, true, false, false, some [("idx", Nat.repr j)]⟩,
    xlsxOk := true, downloadOk := true }

theorem c4_witness :
    (runExtraction env4 ["452.67"] none).data.lookup "452.67" =
      some ⟨"INV001", (List.range 2).map (fun j => [("idx", Nat.repr j)])⟩ ∧
    ((List.range 2).map (fun j : Nat => [("idx", Nat.repr j)])).length = 2 :=
  c4_all_success_order env4 ["452.67"] (by decide) 0 (by decide) "INV001"
    ["111111111111", "222222222222"] rfl (fun j => [("idx", Nat.repr j)])
    (fun j hj => by
      have hj' : j < 2 := by simpa using hj
      have h2 : j = 0 ∨ j = 1 := by omega
      rcases h2 with rfl | rfl <;> exact ⟨rfl, rfl, rfl, rfl, rfl⟩)

/-- C5 (amended): for the amount at position i with tracking ids `tids`,
every tracking id position is folded over in order and the finalized
shipment list is exactly the successful scrapes of those positions in
discovery order; a position is absent from the list precisely when its
click call failed, its click was unsuccessful, its scrape call failed or
its scrape returned no data - a failure of the wait step alone never
removes it, because the driver recovers with a fallback wait and scrapes
anyway. -/
theorem c5_failed_click_skipped (env : Env) (amounts : List String) (hnd : amounts.Nodup)
    (i : Nat) (hi : i < amounts.length) (inv : String) (tids : List String)
    (hf : env.find i = FindOutcome.found inv tids) :
    (runExtraction env amounts none).data.lookup amounts[i] =
      some ⟨inv, (List.range tids.length).filterMap (fun j => procShip (env.ship i j))⟩ ∧
    (∀ j, procShip (env.ship i j) = none ↔
      (env.ship i j).clickErr = true ∨ (env.ship i j).clickOk = false ∨
        (env.ship i j).scrapeErr = true ∨ (env.ship i j).scrapeRes = none) := by
  refine ⟨?_, fun j => procShip_eq_none_iff (env.ship i j)⟩
  rw [lookup_run_none env amounts hnd i hi]
  unfold amountRecord
  rw [hf]

def d1ex : ShipmentData := [("Tracking ID number", "111111111111")]

def d2ex : ShipmentData := [("Tracking ID number", "222222222222")]

/-- An oracle where the wait step fails for the first tracking id but the
click and the scrape succeed. -/
def envC5 : Env :=
  { find := fun _ => FindOutcome.found "INV001" ["111111111111", "222222222222"],
    ship := fun _ j =>
      if j = 0 then ⟨false, true, true, false, some d1ex⟩
      else ⟨false, true, false, false, some d2ex⟩,
    xlsxOk := true, downloadOk := true }

/-- C5 counterexample: the wait step fails for the first tracking id, yet
its slot is present in the finalized shipment list - the claim that a wait
failure leaves the slot absent is false on the code. -/
theorem c5_counterexample :
    (envC5.ship 0 0).waitErr = true ∧
    (runExtraction envC5 ["452.67"] none).data =
      [("452.67", ⟨"INV001", [d1ex, d2ex]⟩)] := by
  constructor
  · rfl
  · decide

theorem c5_witness :
    (runExtraction envC5 ["452.67"] none).data.lookup "452.67" =
      some ⟨"INV001", (List.range 2).filterMap (fun j => procShip (envC5.ship 0 j))⟩ ∧
    (∀ j, procShip (envC5.ship 0 j) = none ↔
      (envC5.ship 0 j).clickErr = true ∨ (envC5.ship 0 j).clickOk = false ∨
        (envC5.ship 0 j).scrapeErr = true ∨ (envC5.ship 0 j).scrapeRes = none) :=
  c5_failed_click_skipped envC5 ["452.67"] (by decide) 0 (by decide) "INV001"
    ["111111111111", "222222222222"] rfl

/-! ### Cancellation behaviour -/

lemma runAmountLoop_prefix (env : Env) (cutoff : Option Nat) :
    ∀ (amounts : List String) (i r : Nat) (acc : List (String × InvoiceRecord)),
      ∃ k, k ≤ amounts.length ∧
        ((runAmountLoop env cutoff amounts i r acc).2.2 = false → k = amounts.length) ∧
        (∀ a, a ∈ (runAmountLoop env cutoff amounts i r acc).1.map Prod.fst ↔
          a ∈ acc.map Prod.fst ∨ a ∈ amounts.take k) := by
  intro amounts
  induction amounts with
  | nil =>
    intro i r acc
    refine ⟨0, Nat.le_refl 0, fun _ => rfl, fun a => ?_⟩
    simp [runAmountLoop]
  | cons b rest ih =>
    intro i r acc
    rw [runAmountLoop]
    by_cases hc : cancelSet cutoff r = true
    · rw [if_pos hc]
      refine ⟨0, Nat.zero_le _, fun hfalse => ?_, fun a => ?_⟩
      · simp at hfalse
      · simp
    · rw [if_neg hc]
      cases h : env.find i with
      | transportErr =>
        obtain ⟨k, hk1, hk2, hk3⟩ := ih (i + 1) (r + 1) (setKey acc b ⟨"ERROR", []⟩)
        refine ⟨k + 1, Nat.succ_le_succ hk1, fun hf2 => ?_, fun a => ?_⟩
        · rw [List.length_cons, hk2 hf2]
        · rw [hk3 a, mem_keys_setKey, List.take_succ_cons, List.mem_cons]
          tauto
      | notFound =>
        obtain ⟨k, hk1, hk2, hk3⟩ := ih (i + 1) (r + 1) (setKey acc b ⟨"NOT FOUND", []⟩)
        refine ⟨k + 1, Nat.succ_le_succ hk1, fun hf2 => ?_, fun a => ?_⟩
        · rw [List.length_cons, hk2 hf2]
        · rw [hk3 a, mem_keys_setKey, List.take_succ_cons, List.mem_cons]
          tauto
      | found inv tids =>
        dsimp only
        by_cases ht : tids.isEmpty = true
        · rw [if_pos ht]
          obtain ⟨k, hk1, hk2, hk3⟩ := ih (i + 1) (r + 1) (setKey acc b ⟨inv, []⟩)
          refine ⟨k + 1, Nat.succ_le_succ hk1, fun hf2 => ?_, fun a => ?_⟩
          · rw [List.length_cons, hk2 hf2]
          · rw [hk3 a, mem_keys_setKey, List.take_succ_cons, List.mem_cons]
            tauto
        · rw [if_neg ht]
          obtain ⟨k, hk1, hk2, hk3⟩ := ih (i + 1)
            (runShipLoop (env.ship i) cutoff tids.length 0 (r + 1) []).2
            (setKey acc b ⟨inv, (runShipLoop (env.ship i) cutoff tids.length 0 (r + 1) []).1⟩)
          refine ⟨k + 1, Nat.succ_le_succ hk1, fun hf2 => ?_, fun a => ?_⟩
          · rw [List.length_cons, hk2 hf2]
          · rw [hk3 a, mem_keys_setKey, List.take_succ_cons, List.mem_cons]
            tauto

lemma runExtraction_cancel_fields (env : Env) (amounts : List String) (cutoff : Option Nat)
    (h : (runAmountLoop env cutoff amounts 0 0 []).2.2 = true) :
    runExtraction env amounts cutoff =
      { data := (runAmountLoop env cutoff amounts 0 0 []).1, terminal := Terminal.cancelled,
        exportAttempted := false, downloadTriggered := false } := by
  simp [runExtraction, h]

lemma runExtraction_nocancel_fields (env : Env) (amounts : List String) (cutoff : Option Nat)
    (h : (runAmountLoop env cutoff amounts 0 0 []).2.2 = false) :
    (runExtraction env amounts cutoff).terminal ≠ Terminal.cancelled ∧
    (runExtraction env amounts cutoff).exportAttempted = true := by
  simp only [runExtraction, h]
  split
  · rename_i hcond
    exact absurd hcond (by simp)
  · split
    · exact ⟨by simp, rfl⟩
    · split
      · exact ⟨by simp, rfl⟩
      · exact ⟨by simp, rfl⟩

/-- C2 (amended): once the cancellation flag is observed at a per-amount
checkpoint the run reports cancellation and never reaches export or
download, and only a prefix of the requested amounts is processed; when no
per-amount checkpoint observes the flag - in particular when the flag is
only raised during the final amount, where the per-shipment checkpoint
merely stops the remaining shipments of that amount - the whole request is
processed and the run proceeds to export with a non-cancelled terminal
status. -/
theorem c2_cancellation_amended (env : Env) (amounts : List String) (cutoff : Option Nat) :
    ((runExtraction env amounts cutoff).terminal = Terminal.cancelled →
      (runExtraction env amounts cutoff).exportAttempted = false ∧
      (runExtraction env amounts cutoff).downloadTriggered = false) ∧
    ((runExtraction env amounts cutoff).terminal ≠ Terminal.cancelled →
      (runExtraction env amounts cutoff).exportAttempted = true) ∧
    (∃ k, k ≤ amounts.length ∧
      ((runExtraction env amounts cutoff).terminal ≠ Terminal.cancelled →
        k = amounts.length) ∧
      (∀ a, a ∈ (runExtraction env amounts cutoff).data.map Prod.fst ↔
        a ∈ amounts.take k)) := by
  cases hb : (runAmountLoop env cutoff amounts 0 0 []).2.2 with
  | true =>
    have hr := runExtraction_cancel_fields env amounts cutoff hb
    obtain ⟨k, hk1, _, hk3⟩ := runAmountLoop_prefix env cutoff amounts 0 0 []
    have hcan : (runExtraction env amounts cutoff).terminal = Terminal.cancelled := by
      rw [hr]
    refine ⟨fun _ => ?_, fun hne => absurd hcan hne, k, hk1,
      fun hne => absurd hcan hne, fun a => ?_⟩
    · rw [hr]
      exact ⟨rfl, rfl⟩
    · rw [hr]
      dsimp only
      rw [hk3 a]
      simp
  | false =>
    have hnc := runExtraction_nocancel_fields env amounts cutoff hb
    obtain ⟨k, hk1, hk2, hk3⟩ := runAmountLoop_prefix env cutoff amounts 0 0 []
    refine ⟨fun hcan => absurd hcan hnc.1, fun _ => hnc.2, k, hk1,
      fun _ => hk2 hb, fun a => ?_⟩
    rw [runExtraction_data, hk3 a]
    simp

/-- An oracle where the single requested amount has two tracking ids and
every agent call succeeds. -/
def envC2 : Env :=
  { find := fun _ => FindOutcome.found "INV001" ["111111111111", "222222222222"],
    ship := fun _ _ => ⟨false, true, false, false, some d1ex⟩,
    xlsxOk := true, downloadOk := true }

/-- C2 counterexample: the cancellation flag is raised between the first
poll (top of the per-amount loop for the only amount) and the second poll
(top of the per-shipment loop), i.e. mid-run; the per-shipment checkpoint
observes it (cancelSet gives true at poll 1), yet the run finishes with a
completed terminal status and triggers export and download - not a
cancelled outcome. -/
theorem c2_counterexample :
    cancelSet (some 1) 1 = true ∧
    cancelSet (some 1) 0 = false ∧
    (runExtraction envC2 ["452.67"] (some 1)).terminal = Terminal.completed 0 1 ∧
    (runExtraction envC2 ["452.67"] (some 1)).exportAttempted = true ∧
    (runExtraction envC2 ["452.67"] (some 1)).downloadTriggered = true := by
  refine ⟨by decide, by decide, ?_, ?_, ?_⟩ <;> decide

/-! ### Tracking-id extraction (content.js scrapeTrackingIds and the
extraction phase of part_002 findClickAndScrapeInvoice)

The DOM is abstracted to the candidate sequences each querySelectorAll
returns, in document order, together with the per-candidate facts the
source tests (label value, trimmed text, href/ancestor context). The
element-matching guards are translated literally; every strategy appends
only behind a membership check. -/

def isTrackingLabel (label : String) : Bool :=
  label == "trackingNumber" || label == "TRACKING_ID" || label == "trackingId"

/-- The regex `^\d{lo,hi}$`: all characters are digits and the length lies
between lo and hi. -/
def digitsLenBetween (lo hi : Nat) (s : String) : Bool :=
  s.data.all Char.isDigit && decide (lo ≤ s.length) && decide (s.length ≤ hi)

/-- An anchor as content.js sees it: its trimmed text and whether its href
contains shipment or tracking or it sits inside a table. -/
structure CsLink where
  text : String
  inShipCtx : Bool

/-- The invoice-details page as content.js scrapeTrackingIds queries it:
data-label cells (attribute, trimmed text), anchors, and anchors inside
table rows, each in document order. -/
structure CsPage where
  labeledCells : List (String × String)
  links : List CsLink
  rowLinks : List String

/-- content.js scrapeTrackingIds: strategy 1 collects the texts of cells
whose data-label is a tracking label; strategy 2 (only when strategy 1
found nothing) collects anchor texts matching `^\d{12,15}$` in shipment
context; strategy 3 (only when still empty) collects row anchor texts
matching `^\d{10,22}$`; every push is behind a membership check. -/
def scrapeTrackingIds (pg : CsPage) : List String :=
  let t1 := pg.labeledCells.foldl
    (fun acc cell => pushIfNew (isTrackingLabel cell.1 && cell.2 != "") cell.2 acc) []
  let t2 :=
    if t1.isEmpty then
      pg.links.foldl
        (fun acc ln => pushIfNew (digitsLenBetween 12 15 ln.text && ln.inShipCtx) ln.text acc)
        t1
    else t1
  if t2.isEmpty then
    pg.rowLinks.foldl (fun acc t => pushIfNew (digitsLenBetween 10 22 t) t acc) t2
  else t2

/-- A clickable (button or anchor) of part_002: its trimmed text and
whether it sits inside a table-like or detail component context. -/
structure PjClickable where
  text : String
  inTableCtx : Bool

/-- The page as the part_002 extraction phase queries it: texts inside the
tracking data-label cells, all clickables, and the `\b\d{12,15}\b` matches
of the body text, each in document order. -/
structure PjPage where
  labeledCellTexts : List String
  clickables : List PjClickable
  textMatches : List String

/-- Longest run of consecutive digits in a character list. -/
def digitRunsPeak (cs : List Char) : Nat :=
  (cs.foldl
    (fun p c => if c.isDigit then (Nat.max p.1 (p.2 + 1), p.2 + 1) else (p.1, 0))
    ((0, 0) : Nat × Nat)).1

/-- The regex test `/\d{10,}/.test(text)`. -/
def hasDigitRunTen (s : String) : Bool := decide (10 ≤ digitRunsPeak s.data)

/-- Whether `needle` occurs as a contiguous substring of the character
list (JS String.prototype.includes). -/
def subOccurs (needle : List Char) : List Char → Bool
  | [] => needle.isEmpty
  | c :: rest => needle.isPrefixOf (c :: rest) || subOccurs needle rest

/-- part_002 findClickAndScrapeInvoice, tracking-id extraction phase:
strategy 1 collects button/cell texts of tracking data-label cells that
are nonempty and contain a ten-digit run; strategy 2 (when empty)
clickables matching `^\d{10,22}$` in table context; strategy 3 (when still
empty) any clickable matching `^\d{10,22}$`; strategy 4 (when still empty)
the deduplicated body-text matches that occur inside some clickable text;
every push is behind a membership check. -/
def findClickAndScrapeTrackingIds (pg : PjPage) : List String :=
  let t1 := pg.labeledCellTexts.foldl
    (fun acc text => pushIfNew (text != "" && hasDigitRunTen text) text acc) []
  let t2 :=
    if t1.isEmpty then
      pg.clickables.foldl
        (fun acc el => pushIfNew (digitsLenBetween 10 22 el.text && el.inTableCtx) el.text acc)
        t1
    else t1
  let t3 :=
    if t2.isEmpty then
      pg.clickables.foldl
        (fun acc el => pushIfNew (digitsLenBetween 10 22 el.text) el.text acc) t2
    else t2
  if t3.isEmpty then
    (dedupKeep pg.textMatches).foldl
      (fun acc num =>
        pushIfNew (pg.clickables.any (fun el => subOccurs num.data el.text.data)) num acc)
      t3
  else t3

lemma not_mem_of_guard {p : Bool} {x : String} {acc : List String}
    (h : (p && !acc.contains x) = true) : x ∉ acc := by
  rw [Bool.and_eq_true, Bool.not_eq_true'] at h
  intro hm
  have hc : acc.contains x = true := List.elem_iff.mpr hm
  rw [hc] at h
  simp at h

lemma nodup_pushIfNew {p : Bool} {x : String} {acc : List String} (h : acc.Nodup) :
    (pushIfNew p x acc).Nodup := by
  unfold pushIfNew
  split
  · rename_i hcond
    simp [List.nodup_append, h, not_mem_of_guard hcond]
  · exact h

lemma nodup_foldl_pushIfNew {α : Type} (p : α → Bool) (key : α → String) :
    ∀ (xs : List α) (acc : List String), acc.Nodup →
      (xs.foldl (fun acc y => pushIfNew (p y) (key y) acc) acc).Nodup := by
  intro xs
  induction xs with
  | nil => intro acc h; exact h
  | cons x xs ih => intro acc h; exact ih _ (nodup_pushIfNew h)

lemma nodup_ite (c : Prop) [Decidable c] {a b : List String} (ha : a.Nodup)
    (hb : b.Nodup) : (if c then a else b).Nodup := by
  split
  · exact ha
  · exact hb

/-- C9: on every page state, both tracking-id extractors return a list
with pairwise-distinct elements - every strategy checks membership before
appending. -/
theorem c9_tracking_ids_nodup :
    (∀ pg : CsPage, (scrapeTrackingIds pg).Nodup) ∧
    (∀ pg : PjPage, (findClickAndScrapeTrackingIds pg).Nodup) := by
  constructor
  · intro pg
    simp only [scrapeTrackingIds]
    refine nodup_ite _ ?_ ?_
    · refine nodup_foldl_pushIfNew _ _ _ _ ?_
      refine nodup_ite _ ?_ ?_
      · exact nodup_foldl_pushIfNew _ _ _ _ (nodup_foldl_pushIfNew _ _ _ _ List.nodup_nil)
      · exact nodup_foldl_pushIfNew _ _ _ _ List.nodup_nil
    · refine nodup_ite _ ?_ ?_
      · exact nodup_foldl_pushIfNew _ _ _ _ (nodup_foldl_pushIfNew _ _ _ _ List.nodup_nil)
      · exact nodup_foldl_pushIfNew _ _ _ _ List.nodup_nil
  · intro pg
    simp only [findClickAndScrapeTrackingIds]
    refine nodup_ite _ ?_ ?_
    · refine nodup_foldl_pushIfNew _ _ _ _ ?_
      refine nodup_ite _ ?_ ?_
      · refine nodup_foldl_pushIfNew _ _ _ _ ?_
        refine nodup_ite _ ?_ ?_
        · exact nodup_foldl_pushIfNew _ _ _ _ (nodup_foldl_pushIfNew _ _ _ _ List.nodup_nil)
        · exact nodup_foldl_pushIfNew _ _ _ _ List.nodup_nil
      · refine nodup_ite _ ?_ ?_
        · exact nodup_foldl_pushIfNew _ _ _ _ (nodup_foldl_pushIfNew _ _ _ _ List.nodup_nil)
        · exact nodup_foldl_pushIfNew _ _ _ _ List.nodup_nil
    · refine nodup_ite _ ?_ ?_
      · refine nodup_foldl_pushIfNew _ _ _ _ ?_
        refine nodup_ite _ ?_ ?_
        · exact nodup_foldl_pushIfNew _ _ _ _ (nodup_foldl_pushIfNew _ _ _ _ List.nodup_nil)
        · exact nodup_foldl_pushIfNew _ _ _ _ List.nodup_nil
      · refine nodup_ite _ ?_ ?_
        · exact nodup_foldl_pushIfNew _ _ _ _ (nodup_foldl_pushIfNew _ _ _ _ List.nodup_nil)
        · exact nodup_foldl_pushIfNew _ _ _ _ List.nodup_nil

/-! ### parseAmounts fixed point (C10) -/

lemma mem_pushIfNew {p : Bool} {x a : String} {acc : List String}
    (h : a ∈ pushIfNew p x acc) : a ∈ acc ∨ a = x := by
  unfold pushIfNew at h
  split at h
  · rcases List.mem_append.mp h with h | h
    · exact Or.inl h
    · exact Or.inr (List.mem_singleton.mp h)
  · exact Or.inl h

lemma mem_dedupKeep {a : String} {l : List String} (h : a ∈ dedupKeep l) : a ∈ l := by
  have hgen : ∀ (l acc : List String),
      a ∈ l.foldl (fun acc x => pushIfNew true x acc) acc → a ∈ acc ∨ a ∈ l := by
    intro l
    induction l with
    | nil => intro acc h; exact Or.inl h
    | cons x xs ih =>
      intro acc h
      rcases ih _ h with h' | h'
      · rcases mem_pushIfNew h' with h'' | h''
        · exact Or.inl h''
        · exact Or.inr (by rw [h'']; exact List.mem_cons_self x xs)
      · exact Or.inr (List.mem_cons_of_mem _ h')
  rcases hgen l [] h with h' | h'
  · cases h'
  · exact h'

/-- C10: every amount emitted by the popup parseAmounts matches the shape
`digits(.d or .dd)?` and is a fixed point of the agent normalizeAmount, so
the driver and the agent agree on the lookup key. -/
theorem c10_parse_amounts_normalized (raw : String) (a : String)
    (h : a ∈ parseAmounts raw) :
    amountShape a = true ∧ normalizeAmount a = a := by
  unfold parseAmounts at h
  have h1 := mem_dedupKeep h
  rcases List.mem_filterMap.mp h1 with ⟨tok, _, htok⟩
  dsimp only at htok
  split at htok
  · rename_i hc
    rw [Bool.and_eq_true] at hc
    have ha : normalizeAmount tok = a := Option.some.inj htok
    refine ⟨ha ▸ hc.2, ?_⟩
    rw [← ha]
    exact normalizeAmount_idem tok
  · cases htok

theorem c10_witness :
    amountShape "452.67" = true ∧ normalizeAmount "452.67" = "452.67" :=
  c10_parse_amounts_normalized "452.67" "452.67" (by decide)

/-! ### Export sheet construction (generateXlsx of part_000 / part_001)

For a populated sheet the source collects the union of the shipment keys
into a Set (insertion order), walks the fixed preferred order moving the
keys present into orderedKeys while deleting them from the set, appends
the remaining keys sorted, builds one row per shipment with empty strings
for missing keys, and sizes each column by the greatest content length
plus two, capped at 50. -/

def preferredOrder : List String :=
  ["Tracking ID number", "Invoice number", "Account number",
   "Invoice date", "Due date", "Status",
   "Total billed", "Tracking ID balance due",
   "Sender Name", "Sender Company", "Sender Address",
   "Sender City/State/Zip", "Sender Country",
   "Recipient Name", "Recipient Company", "Recipient Address",
   "Recipient City/State/Zip", "Recipient Country"]

/-- The key set collected across the shipments of one invoice: a JS Set
iterated in insertion order. -/
def allKeysOf (shipments : List ShipmentData) : List String :=
  dedupKeep ((shipments.map (fun s => s.map Prod.fst)).flatten)

/-- JS Array.prototype.sort on the remaining keys. -/
def sortKeys (l : List String) : List String := List.insertionSort (· ≤ ·) l

/-- The source loop: for each preferred key present in the set, push it
and delete it from the set; afterwards append the remaining set sorted. -/
def orderedKeysOf (shipments : List ShipmentData) : List String :=
  let st := preferredOrder.foldl
    (fun (st : List String × List String) pk =>
      if st.2.contains pk then (st.1 ++ [pk], st.2.erase pk) else st)
    ([], allKeysOf shipments)
  st.1 ++ sortKeys st.2

/-- JS `s[k] || ""`. -/
def lookupD (s : ShipmentData) (k : String) : String :=
  match s.find? (fun p => p.1 == k) with
  | some p => p.2
  | none => ""

def rowsOf (shipments : List ShipmentData) (keys : List String) : List (List String) :=
  shipments.map (fun s => keys.map (fun k => lookupD s k))

/-- `Math.max(key.length, ...rows.map(r => (r[idx] || "").length))` without
the key part: running maximum over the cells of column idx. -/
def maxCellLen (rows : List (List String)) (idx : Nat) : Nat :=
  rows.foldl (fun m r => Nat.max m (r.getD idx "").length) 0

/-- The `!cols` array: for each column, min(maxLen + 2, 50). -/
def colWidths (keys : List String) (rows : List (List String)) : List Nat :=
  (List.range keys.length).map
    (fun idx => Nat.min (Nat.max (keys.getD idx "").length (maxCellLen rows idx) + 2) 50)

/-- Claim-side recomputation: greatest content length over the header and
the cells of one column. -/
def colMaxContent (key : String) (cells : List String) : Nat :=
  ((key :: cells).map String.length).foldr Nat.max 0

def columnOf (rows : List (List String)) (idx : Nat) : List String :=
  rows.map (fun r => r.getD idx "")

lemma nodup_dedupKeep (l : List String) : (dedupKeep l).Nodup :=
  nodup_foldl_pushIfNew (fun _ => true) (fun x => x) l [] List.nodup_nil

lemma preferredOrder_nodup : preferredOrder.Nodup := by decide

lemma contains_eq_decide_mem (l : List String) (x : String) :
    l.contains x = decide (x ∈ l) := List.elem_eq_mem x l

lemma orderedKeys_fold :
    ∀ (pref : List String) (acc rem : List String), rem.Nodup → pref.Nodup →
      pref.foldl
        (fun (st : List String × List String) pk =>
          if st.2.contains pk then (st.1 ++ [pk], st.2.erase pk) else st)
        (acc, rem) =
      (acc ++ pref.filter (fun k => rem.contains k),
       rem.filter (fun k => !pref.contains k)) := by
  intro pref
  induction pref with
  | nil =>
    intro acc rem _ _
    simp
  | cons p ps ih =>
    intro acc rem hrem hpref
    have hp_not_ps : p ∉ ps := (List.nodup_cons.mp hpref).1
    have hps : ps.Nodup := (List.nodup_cons.mp hpref).2
    rw [List.foldl_cons]
    dsimp only
    by_cases hp : rem.contains p = true
    · rw [if_pos hp, ih (acc ++ [p]) (rem.erase p) (hrem.erase p) hps]
      have hfil1 : ps.filter (fun k => (rem.erase p).contains k) =
          ps.filter (fun k => rem.contains k) := by
        apply List.filter_congr
        intro x hx
        have hxp : x ≠ p := fun he => hp_not_ps (he ▸ hx)
        rw [contains_eq_decide_mem, contains_eq_decide_mem, decide_eq_decide]
        exact List.mem_erase_of_ne hxp
      have hfil2 : (rem.erase p).filter (fun k => !ps.contains k) =
          rem.filter (fun k => !(p :: ps).contains k) := by
        rw [hrem.erase_eq_filter p, List.filter_filter]
        apply List.filter_congr
        intro x hx
        rw [Bool.eq_iff_iff]
        simp only [Bool.and_eq_true, Bool.not_eq_true', List.contains_cons, Bool.or_eq_false_iff,
          bne_iff_ne]
        constructor
        · intro hb
          exact ⟨by simpa using hb.2, hb.1⟩
        · intro hb
          exact ⟨hb.2, by simpa using hb.1⟩
      rw [hfil1, hfil2, List.filter_cons_of_pos hp, List.append_assoc, List.singleton_append]
    · rw [if_neg hp, ih acc rem hrem hps]
      have hpr : p ∉ rem := by
        intro hm
        exact hp (List.elem_iff.mpr hm)
      have hfil2 : rem.filter (fun k => !ps.contains k) =
          rem.filter (fun k => !(p :: ps).contains k) := by
        apply List.filter_congr
        intro x hx
        have hxp : (x == p) = false := by
          simp only [beq_eq_false_iff_ne]
          exact fun he => hpr (he ▸ hx)
        simp only [List.contains_cons, hxp, Bool.false_or]
      rw [hfil2, List.filter_cons_of_neg (by simpa using hp)]

lemma nat_max_assoc (a b c : Nat) : Nat.max (Nat.max a b) c = Nat.max a (Nat.max b c) :=
  Nat.max_assoc a b c

lemma nat_zero_max (a : Nat) : Nat.max 0 a = a := Nat.zero_max a

lemma maxCellLen_eq (rows : List (List String)) (idx : Nat) :
    ∀ m : Nat, rows.foldl (fun m r => Nat.max m (r.getD idx "").length) m =
      Nat.max m (((rows.map (fun r => r.getD idx "")).map String.length).foldr Nat.max 0) := by
  induction rows with
  | nil => intro m; simp
  | cons r rs ih =>
    intro m
    simp only [List.foldl_cons, List.map_cons, List.foldr_cons]
    rw [ih, nat_max_assoc]

lemma colWidths_eq (keys : List String) (rows : List (List String)) :
    colWidths keys rows = (List.range keys.length).map (fun idx =>
      Nat.min (colMaxContent (keys.getD idx "") (columnOf rows idx) + 2) 50) := by
  unfold colWidths
  apply List.map_congr_left
  intro idx _
  have h1 : maxCellLen rows idx =
      ((rows.map (fun r => r.getD idx "")).map String.length).foldr Nat.max 0 := by
    unfold maxCellLen
    rw [maxCellLen_eq rows idx 0, nat_zero_max]
  simp only [colMaxContent, columnOf, List.map_cons, List.foldr_cons]
  rw [h1]

lemma colWidths_le (keys : List String) (rows : List (List String)) :
    (colWidths keys rows).all (fun w => decide (w ≤ 50)) = true := by
  rw [List.all_eq_true]
  intro w hw
  unfold colWidths at hw
  rcases List.mem_map.mp hw with ⟨idx, _, rfl⟩
  simp [Nat.min_le_right]

/-- C8: for every invoice the exported sheet has column order equal to the
preferred keys that occur among the shipment keys, in preferred order,
followed by the remaining discovered keys sorted (a sorted permutation of
the leftover keys), and each column width is the greatest content length
of header and cells plus two, capped at 50. -/
theorem c8_column_order_and_widths (shipments : List ShipmentData)
    (_hne : shipments ≠ []) :
    orderedKeysOf shipments =
      preferredOrder.filter (fun k => (allKeysOf shipments).contains k) ++
        sortKeys ((allKeysOf shipments).filter (fun k => !preferredOrder.contains k)) ∧
    List.Sorted (· ≤ ·)
      (sortKeys ((allKeysOf shipments).filter (fun k => !preferredOrder.contains k))) ∧
    List.Perm
      (sortKeys ((allKeysOf shipments).filter (fun k => !preferredOrder.contains k)))
      ((allKeysOf shipments).filter (fun k => !preferredOrder.contains k)) ∧
    colWidths (orderedKeysOf shipments) (rowsOf shipments (orderedKeysOf shipments)) =
      (List.range (orderedKeysOf shipments).length).map (fun idx =>
        Nat.min (colMaxContent ((orderedKeysOf shipments).getD idx "")
          (columnOf (rowsOf shipments (orderedKeysOf shipments)) idx) + 2) 50) ∧
    (colWidths (orderedKeysOf shipments)
        (rowsOf shipments (orderedKeysOf shipments))).all (fun w => decide (w ≤ 50)) = true := by
  refine ⟨?_, List.sorted_insertionSort _ _, List.perm_insertionSort _ _,
    colWidths_eq _ _, colWidths_le _ _⟩
  unfold orderedKeysOf
  rw [orderedKeys_fold preferredOrder [] (allKeysOf shipments)
    (nodup_dedupKeep _) preferredOrder_nodup]
  simp

def exShipments : List ShipmentData :=
  [[("Status", "Paid"), ("Zed", "1")], [("Alpha", "2"), ("Status", "Open")]]

theorem c8_witness :
    orderedKeysOf exShipments =
      preferredOrder.filter (fun k => (allKeysOf exShipments).contains k) ++
        sortKeys ((allKeysOf exShipments).filter (fun k => !preferredOrder.contains k)) ∧
    List.Sorted (· ≤ ·)
      (sortKeys ((allKeysOf exShipments).filter (fun k => !preferredOrder.contains k))) ∧
    List.Perm
      (sortKeys ((allKeysOf exShipments).filter (fun k => !preferredOrder.contains k)))
      ((allKeysOf exShipments).filter (fun k => !preferredOrder.contains k)) ∧
    colWidths (orderedKeysOf exShipments) (rowsOf exShipments (orderedKeysOf exShipments)) =
      (List.range (orderedKeysOf exShipments).length).map (fun idx =>
        Nat.min (colMaxContent ((orderedKeysOf exShipments).getD idx "")
          (columnOf (rowsOf exShipments (orderedKeysOf exShipments)) idx) + 2) 50) ∧
    (colWidths (orderedKeysOf exShipments)
        (rowsOf exShipments (orderedKeysOf exShipments))).all
      (fun w => decide (w ≤ 50)) = true :=
  c8_column_order_and_widths exShipments (by decide)

end FedexScraper
